import Mathlib

/-!
Verification of the QKD protocol engine (BB84 / B92 / E91 sender/receiver
state machines and the two-party network builder) against its
natural-language specification, via a shallow embedding of the Python
sources in Lean.

Conventions of the embedding:
* random draws (`np.random.randint`) become explicit list parameters,
  so every theorem quantifies over all possible draws;
* measurement outcomes of the external quantum engine become oracle
  parameters; over a noiseless, lossless channel a measurement in the
  encoding basis returns the encoded bit (see `measureOutcome`);
* Python exceptions become `Except` values;
* Python's `xs[i]` on a list defaults through `List.getD` whenever the
  surrounding code guarantees the index is in bounds, and is modelled
  by an `Except`-returning lookup where the possibility of an
  `IndexError` is itself the property under study.
-/

namespace QKD

/-- Modelled from the spec: the ideal (noiseless, lossless) measurement
semantics of the external quantum engine, which is out of scope of the
repository.  Measuring a qubit in the basis it was encoded in returns the
encoded bit; measuring in any other basis returns an unconstrained outcome,
supplied here by the oracle value `free`. -/
def measureOutcome (encBasis encBit measBasis free : Nat) : Nat :=
  if measBasis = encBasis then encBit else free

/-- Matched-index computation shared by the BB84/E91 senders
(bb84.py lines 109-112, bb84_realistic_v2.py lines 126-129,
e91.py lines 145-148, e91_realistic.py lines 108-111):
`for i in range(key_size): if bob_bases[i] == bases[i]: matched_indices.append(i)`. -/
def matched_indices (n : Nat) (aliceBases bobBases : List Nat) : List Nat :=
  (List.range n).filter fun i => bobBases.getD i 0 == aliceBases.getD i 0

/-- Strict BB84 sender: the index set transmitted to the receiver
(bb84.py line 114) is the full matched-index set. -/
def bb84SentIndices (n : Nat) (aliceBases bobBases : List Nat) : List Nat :=
  matched_indices n aliceBases bobBases

/-- Strict BB84 sender's sifted key (bb84.py lines 115-118):
`for i in matched_indices: final_key.append(secret_key[i])`. -/
def bb84SenderKey (n : Nat) (aliceBases bobBases secret : List Nat) : List Nat :=
  (matched_indices n aliceBases bobBases).map fun i => secret.getD i 0

/-- Strict BB84 receiver's sifted key (bb84.py lines 72-75): indexes its
`results` list at every received matched index, with no bounds guard. -/
def bb84ReceiverKey (matched results : List Nat) : List Nat :=
  matched.map fun i => results.getD i 0

/-- Free-running BB84 sender: the index set transmitted to the receiver
(bb84_realistic_v2.py line 131) is `matched_indices[:-1]` — the matched
set with its final element removed. -/
def bb84v2SentIndices (n : Nat) (aliceBases bobBases : List Nat) : List Nat :=
  (matched_indices n aliceBases bobBases).dropLast

/-- Free-running BB84 sender's sifted key (bb84_realistic_v2.py
lines 132-134): built over `matched_indices[:-1]`. -/
def bb84v2SenderKey (n : Nat) (aliceBases bobBases secret : List Nat) : List Nat :=
  (bb84v2SentIndices n aliceBases bobBases).map fun i => secret.getD i 0

/-- Free-running BB84 receiver's sifted key (bb84_realistic_v2.py
lines 80-82): each received matched index is used only when it is
in range of the detected-results list, otherwise it is skipped. -/
def bb84v2ReceiverKey (matched results : List Nat) : List Nat :=
  (matched.filter fun i => i < results.length).map fun i => results.getD i 0

/-- Fallible list lookup: Python's `xs[i]`, raising `IndexError`
(modelled as `Except.error ()`) when the index is out of range. -/
def pyIndex (xs : List Nat) (i : Nat) : Except Unit Nat :=
  if h : i < xs.length then Except.ok (xs.get ⟨i, h⟩) else Except.error ()

/-- Free-running BB84 receiver's key-construction loop
(bb84_realistic_v2.py lines 78-82) in source shape, with the list
indexing operation kept fallible so that the absence of an
`IndexError` is a provable property rather than an assumption:
`for i in matched_indices: if i < len(results): final_key.append(results[i])`. -/
def bb84v2ReceiverKeyRun (matched results : List Nat) : Except Unit (List Nat) :=
  matched.foldlM
    (fun acc i =>
      if i < results.length then do
        let r ← pyIndex results i
        pure (acc ++ [r])
      else pure acc)
    []

/-- Free-running BB84 receiver's basis reply (bb84_realistic_v2.py
line 73): `tx_output(bases)` — the full `key_size`-length basis array,
regardless of how many qubits were detected. -/
def bb84v2BasisReply (bases results : List Nat) : List Nat :=
  bases

/-- Free-running E91 receiver's basis reply (e91_realistic.py line 48):
`tx_output(bases[:len(results)])` — truncated to the number of
detected qubits. -/
def e91RealBasisReply (bases results : List Nat) : List Nat :=
  bases.take results.length

/-- Receiver-side measurement results of a BB84 run over a noiseless,
lossless channel: all `n` qubits arrive and each is measured in the
receiver's basis (see `measureOutcome`). -/
def bb84Results (n : Nat) (aliceBases secret bobBases free : List Nat) : List Nat :=
  (List.range n).map fun i =>
    measureOutcome (aliceBases.getD i 0) (secret.getD i 0) (bobBases.getD i 0) (free.getD i 0)

/-- B92 sender's basis rewrite (b92.py lines 96-100): inside the transmit
loop, `if bit == 0: bases[i] = 0` and `if bit == 1: bases[i] = 1` — the
round's basis is forced to the secret bit before encoding. -/
def b92SenderBases (n : Nat) (secret bases : List Nat) : List Nat :=
  (List.range n).map fun i =>
    if secret.getD i 0 = 0 then 0
    else if secret.getD i 0 = 1 then 1
    else bases.getD i 0

/-- B92 receiver loop (b92.py lines 50-71): for each round, measure in the
drawn basis; keep the round exactly when the raw outcome is 1, recording
bit 1 for a Z-basis (basis 0) measurement and bit 0 for an X-basis
(basis 1) measurement.  Returns `(kept_indices, results)`; `outcomes`
is the oracle of raw measurement bits. -/
def b92Receiver (n : Nat) (bases outcomes : List Nat) : List Nat × List Nat :=
  (List.range n).foldl
    (fun acc i =>
      if outcomes.getD i 0 = 1 then
        (acc.1 ++ [i], acc.2 ++ [if bases.getD i 0 = 0 then 1 else 0])
      else acc)
    ([], [])

/-- B92 sender's key share (b92.py lines 110-113): the secret-bit sequence
restricted to the receiver's kept indices. -/
def b92SenderKey (secret keptIndices : List Nat) : List Nat :=
  keptIndices.map fun i => secret.getD i 0

/-- Python runtime errors raised by the strict E91 protocol code. -/
inductive PyErr where
  | nameErr
  | typeErr
  deriving DecidableEq

/-- One iteration of the strict E91 sender's transmit loop (e91.py lines
123-138), after the entangled half has been transmitted: measure the retained
half in basis `b` — basis 0 is a Z measurement, basis 1 an X measurement, and
basis 2 computes `abs(1 - execute_instruction(...))`, subtracting the
instruction's result tuple from an int, which raises `TypeError` — and then
execute `results.append(res[0]['M'][0])`, where `results` is an unbound local
name in this scope, which raises `NameError`.  `outcome` is the raw
measurement bit from the external engine; it is never recorded because every
branch raises. -/
def e91SenderRound (b outcome : Nat) : Except PyErr Nat :=
  if b = 2 then Except.error PyErr.typeErr
  else Except.error PyErr.nameErr

/-- The strict E91 sender's `run` body (e91.py lines 118-154): the transmit
loop over `key_size = secret.length` rounds (each round is `e91SenderRound`),
followed — only if the loop finishes — by the basis comparison against
`bobBases` and the final key built from `secret_key` (lines 144-153). -/
def e91SenderRun (secret bases outcomes bobBases : List Nat) :
    Except PyErr (List Nat) := do
  let _results ← (List.range secret.length).foldlM
    (fun acc i => do
      let r ← e91SenderRound (bases.getD i 0) (outcomes.getD i 0)
      pure (acc ++ [r]))
    ([] : List Nat)
  pure (((List.range secret.length).filter
      fun i => bobBases.getD i 0 == bases.getD i 0).map
    fun i => secret.getD i 0)

/-- One round of the strict E91 receiver's measurement loop (e91.py lines
66-74): the basis is drawn from `{1, 2, 3}` (`1 + randint(3)`); basis 1
measures X and basis 2 measures Z, recording the raw outcome; basis 3
computes `abs(1 - execute_instruction(...))`, subtracting the instruction's
result tuple from an int, which raises `TypeError`. -/
def e91ReceiverRound (b outcome : Nat) : Except PyErr Nat :=
  if b = 1 then Except.ok outcome
  else if b = 2 then Except.ok outcome
  else Except.error PyErr.typeErr

/-- Strict E91 receiver's per-round basis draw (e91.py line 60):
`1 + np.random.randint(3)`, i.e. a value in `{1, 2, 3}`. -/
def e91ReceiverBasisDraw (r : Nat) : Nat :=
  1 + r % 3

/-- Strict E91 sender's per-round basis draw (e91.py line 120):
`np.random.randint(3)`, i.e. a value in `{0, 1, 2}`. -/
def e91SenderBasisDraw (r : Nat) : Nat :=
  r % 3

/-- State stored by `TwoPartyNetwork.__init__` (two_party.py lines 27-38):
the constructor stores its arguments unchanged (resolving the `t_time`
default to `T1 = 11, T2 = 10`) and performs no validation whatsoever.
Continuous physical parameters are rationals. -/
structure TwoPartyNetworkState where
  length : ℚ
  dephase_rate : ℚ
  memory_size : Nat
  t_time : ℚ × ℚ
  q_source_probs : ℚ × ℚ
  loss : ℚ × ℚ
  deriving DecidableEq

/-- `TwoPartyNetwork.__init__` (two_party.py lines 27-38). -/
def twoPartyNetworkNew (length dephase_rate : ℚ) (memory_size : Nat)
    (t_time : Option (ℚ × ℚ)) (q_source_probs loss : ℚ × ℚ) :
    TwoPartyNetworkState :=
  { length := length
    dephase_rate := dephase_rate
    memory_size := memory_size
    t_time := t_time.getD (11, 10)
    q_source_probs := q_source_probs
    loss := loss }

/-- Parameters of the quantum connection built by `QubitConnection.__init__`
(two_party.py lines 13-22). -/
structure QubitConnDesc where
  length : ℚ
  dephase_rate : ℚ
  p_loss_init : ℚ
  p_loss_length : ℚ
  deriving DecidableEq

/-- The topology produced by `TwoPartyNetwork.generate_noisy_network`
(two_party.py lines 157-202): one quantum connection, one classical
connection whose delay is the literal `10`, alice's processor carrying a
qubit source and bob's carrying the two detectors. -/
structure NoisyNetworkDesc where
  qconn : QubitConnDesc
  classical_delay : ℚ
  alice_has_qsource : Bool
  bob_has_qdetect : Bool
  memory_size : Nat
  t_time : ℚ × ℚ
  deriving DecidableEq

/-- A configuration error, the failure the spec claims network construction
raises on malformed input. -/
inductive ConfigError where
  | invalidConfig
  deriving DecidableEq

/-- `TwoPartyNetwork.generate_noisy_network` (two_party.py lines 157-202):
builds the two nodes, the `QubitConnection` with the stored dephase/loss
parameters, and a classical connection with delay hard-coded to `10`.
Neither this method nor `__init__` contains any parameter check or `raise`,
so the construction never produces an error. -/
def generate_noisy_network (s : TwoPartyNetworkState) :
    Except ConfigError NoisyNetworkDesc :=
  Except.ok
    { qconn :=
        { length := s.length
          dephase_rate := s.dephase_rate
          p_loss_init := s.loss.1
          p_loss_length := s.loss.2 }
      classical_delay := 10
      alice_has_qsource := true
      bob_has_qdetect := true
      memory_size := s.memory_size
      t_time := s.t_time }

/-- The random draws consumed by one free-running BB84 run: the sender's
secret bits and bases, the receiver's bases, and the oracle of
mismatched-basis measurement outcomes. -/
structure RunDraw where
  secret : List Nat
  basesA : List Nat
  basesB : List Nat
  free : List Nat

/-- One complete free-running BB84 run over a noiseless, lossless channel
(bb84_realistic_v2.py, sender lines 103-138 and receiver lines 47-87): all
`n` qubits are detected, the receiver replies with its full basis array, the
sender computes the matched indices, drops the final one, and both sides
build their keys.  Returns `(alice_key, bob_key)`. -/
def bb84v2NoiselessRun (n : Nat) (d : RunDraw) : List Nat × List Nat :=
  let results := bb84Results n d.basesA d.secret d.basesB d.free
  let bobReply := bb84v2BasisReply d.basesB results
  let sent := bb84v2SentIndices n d.basesA bobReply
  (bb84v2SenderKey n d.basesA bobReply d.secret,
   bb84v2ReceiverKey sent results)

/-- `keys_match` (bb84_realistic_v2.py lines 164-171): false on a length
mismatch, else an elementwise comparison loop. -/
def keys_match (k1 k2 : List Nat) : Bool :=
  if k1.length = k2.length then
    (List.range k1.length).all fun i => k1.getD i 0 == k2.getD i 0
  else false

/-- The statistics dictionary returned by `run_experiment`
(bb84_realistic_v2.py lines 173-180). -/
structure ExperimentStats where
  mismatched_keys : Nat
  matched_keys : Nat
  deriving DecidableEq

/-- `run_experiment` (bb84_realistic_v2.py lines 141-180) specialised to a
noiseless, lossless channel (`loss=(0,0)`, `dephase_rate=0`): run the
protocol pair once per draw, collect the per-run `(alice_key, bob_key)`
pairs in order, then count matching and mismatching pairs with
`keys_match`. -/
def run_experiment (n : Nat) (draws : List RunDraw) : ExperimentStats :=
  ((draws.map (bb84v2NoiselessRun n)).foldl
    (fun st p =>
      if keys_match p.1 p.2 then
        { mismatched_keys := st.mismatched_keys, matched_keys := st.matched_keys + 1 }
      else
        { mismatched_keys := st.mismatched_keys + 1, matched_keys := st.matched_keys })
    { mismatched_keys := 0, matched_keys := 0 })

/-! ### Strict BB84 handshake skeleton

A small-step model of the communication structure of the strict BB84 pair
(bb84.py): the sender's `run` (lines 92-119) and the receiver's `run`
(lines 45-76), with the per-round bit values abstracted away.  The two
actors interleave arbitrarily; the quantum channel may lose a transmitted
qubit (decided by the oracle `loss`); the classical channel is reliable.
Neither actor has any timeout or cancellation transition, exactly as in the
source. -/

/-- Sender control state: `send i` is about to encode and transmit qubit
`i`; `waitAck i` is the `yield self.await_port_input(...)` inside the loop
(bb84.py line 104); `waitBases` is the post-loop await (line 107); `done`
is after the SUCCESS signal (line 119). -/
inductive SPhase where
  | send (i : Nat)
  | waitAck (i : Nat)
  | waitBases
  | done
  deriving DecidableEq

/-- Receiver control state: `wait i` awaits qubit `i` (bb84.py line 51);
`waitMatched` is the post-loop await for the matched indices (line 70);
`done` is after the SUCCESS signal (line 76). -/
inductive RPhase where
  | wait (i : Nat)
  | waitMatched
  | done
  deriving DecidableEq

/-- Classical messages travelling from receiver to sender: per-qubit ACKs
(bb84.py line 64) and the final basis sequence (line 67). -/
inductive CMsg where
  | ack
  | basesMsg
  deriving DecidableEq

/-- Global state of the strict BB84 pair: the two control states, the
indices of qubits currently in flight on the quantum channel, the
receiver-to-sender classical queue, and the number of matched-index
messages in flight from sender to receiver. -/
structure World where
  sp : SPhase
  rp : RPhase
  flight : List Nat
  b2a : List CMsg
  a2b : Nat
  deriving DecidableEq

/-- Both actors at the start of their `run` bodies. -/
def initWorld : World :=
  { sp := SPhase.send 0, rp := RPhase.wait 0, flight := [], b2a := [], a2b := 0 }

/-- Interleaved small-step semantics of the strict BB84 pair with
`key_size = n` and loss oracle `loss` (`loss i = true` means qubit `i` is
lost in transit).  There is no timeout, cancellation or retransmission
transition: the constructors below are the only ways the system moves. -/
inductive Step (n : Nat) (loss : Nat → Bool) : World → World → Prop where
  | sendQubit (i : Nat) (rp : RPhase) (flight : List Nat) (b2a : List CMsg)
      (a2b : Nat) (hin : i < n) :
      Step n loss ⟨SPhase.send i, rp, flight, b2a, a2b⟩
        ⟨if i + 1 < n then SPhase.waitAck i else SPhase.waitBases, rp,
         if loss i then flight else flight ++ [i], b2a, a2b⟩
  | recvAck (i : Nat) (rp : RPhase) (flight : List Nat) (m : CMsg)
      (rest : List CMsg) (a2b : Nat) :
      Step n loss ⟨SPhase.waitAck i, rp, flight, m :: rest, a2b⟩
        ⟨SPhase.send (i + 1), rp, flight, rest, a2b⟩
  | recvQubit (i j : Nat) (sp : SPhase) (rest : List Nat) (b2a : List CMsg)
      (a2b : Nat) (hin : i < n) :
      Step n loss ⟨sp, RPhase.wait i, j :: rest, b2a, a2b⟩
        (if i + 1 < n then
          ⟨sp, RPhase.wait (i + 1), rest, b2a ++ [CMsg.ack], a2b⟩
         else
          ⟨sp, RPhase.waitMatched, rest, b2a ++ [CMsg.basesMsg], a2b⟩)
  | recvBases (rp : RPhase) (flight : List Nat) (m : CMsg) (rest : List CMsg)
      (a2b : Nat) :
      Step n loss ⟨SPhase.waitBases, rp, flight, m :: rest, a2b⟩
        ⟨SPhase.done, rp, flight, rest, a2b + 1⟩
  | recvMatched (sp : SPhase) (flight : List Nat) (b2a : List CMsg) (k : Nat) :
      Step n loss ⟨sp, RPhase.waitMatched, flight, b2a, k + 1⟩
        ⟨sp, RPhase.done, flight, b2a, k⟩

/-- A state the strict BB84 pair can actually be in. -/
def Reachable (n : Nat) (loss : Nat → Bool) (w : World) : Prop :=
  Relation.ReflTransGen (Step n loss) initWorld w

/-- No qubit among the first `i` was lost. -/
def okUpTo (loss : Nat → Bool) (i : Nat) : Prop :=
  ∀ j, j < i → loss j = false

/-- Global invariant of the strict BB84 pair: an exhaustive description of
the reachable global states.  Each disjunct fixes both control states, the
channel contents, and how far dialogue can have advanced given the loss
oracle. -/
def Inv (n : Nat) (loss : Nat → Bool) (w : World) : Prop :=
  (∃ i, i < n ∧ okUpTo loss i ∧
    w = ⟨SPhase.send i, RPhase.wait i, [], [], 0⟩) ∨
  (∃ i, i + 1 < n ∧ okUpTo loss (i + 1) ∧
    w = ⟨SPhase.waitAck i, RPhase.wait i, [i], [], 0⟩) ∨
  (∃ i, i + 1 = n ∧ okUpTo loss (i + 1) ∧
    w = ⟨SPhase.waitBases, RPhase.wait i, [i], [], 0⟩) ∨
  (∃ i, i + 1 < n ∧ loss i = true ∧ okUpTo loss i ∧
    w = ⟨SPhase.waitAck i, RPhase.wait i, [], [], 0⟩) ∨
  (∃ i, i + 1 = n ∧ loss i = true ∧ okUpTo loss i ∧
    w = ⟨SPhase.waitBases, RPhase.wait i, [], [], 0⟩) ∨
  (∃ i, i + 1 < n ∧ okUpTo loss (i + 1) ∧
    w = ⟨SPhase.waitAck i, RPhase.wait (i + 1), [], [CMsg.ack], 0⟩) ∨
  (okUpTo loss n ∧
    w = ⟨SPhase.waitBases, RPhase.waitMatched, [], [CMsg.basesMsg], 0⟩) ∨
  (okUpTo loss n ∧
    w = ⟨SPhase.done, RPhase.waitMatched, [], [], 1⟩) ∨
  (okUpTo loss n ∧
    w = ⟨SPhase.done, RPhase.done, [], [], 0⟩)

/-! ### Helper lemmas -/

theorem except_ok_bind {ε α β : Type} (a : α) (f : α → Except ε β) :
    (Except.ok a >>= f) = f a := rfl

theorem except_error_bind {ε α β : Type} (e : ε) (f : α → Except ε β) :
    ((Except.error e : Except ε α) >>= f) = Except.error e := rfl

theorem matched_indices_length_le (n : Nat) (a b : List Nat) :
    (matched_indices n a b).length ≤ n := by
  calc (matched_indices n a b).length
      ≤ (List.range n).length := List.length_filter_le _ _
    _ = n := List.length_range n

theorem mem_matched_indices {n : Nat} {a b : List Nat} {i : Nat}
    (h : i ∈ matched_indices n a b) : i < n ∧ b.getD i 0 = a.getD i 0 := by
  unfold matched_indices at h
  rw [List.mem_filter, List.mem_range] at h
  exact ⟨h.1, by simpa using h.2⟩

theorem bb84Results_length (n : Nat) (a s b f : List Nat) :
    (bb84Results n a s b f).length = n := by
  simp [bb84Results]

theorem bb84Results_getD {n i : Nat} (a s b f : List Nat) (hi : i < n) :
    (bb84Results n a s b f).getD i 0 =
      measureOutcome (a.getD i 0) (s.getD i 0) (b.getD i 0) (f.getD i 0) := by
  unfold bb84Results
  rw [List.getD_eq_getElem _ _ (by simpa using hi)]
  simp

/-- Characterization of the B92 receiver loop: the kept indices are exactly
the rounds whose raw outcome is 1, and each kept round records the
complement of the basis used. -/
theorem b92Receiver_eq (n : Nat) (bases outcomes : List Nat) :
    b92Receiver n bases outcomes =
      ((List.range n).filter (fun i => outcomes.getD i 0 == 1),
       (((List.range n).filter fun i => outcomes.getD i 0 == 1).map
         fun i => if bases.getD i 0 = 0 then 1 else 0)) := by
  unfold b92Receiver
  suffices h : ∀ (l : List Nat) (acc : List Nat × List Nat),
      l.foldl
        (fun acc i =>
          if outcomes.getD i 0 = 1 then
            (acc.1 ++ [i], acc.2 ++ [if bases.getD i 0 = 0 then 1 else 0])
          else acc)
        acc =
      (acc.1 ++ l.filter (fun i => outcomes.getD i 0 == 1),
       acc.2 ++ ((l.filter fun i => outcomes.getD i 0 == 1).map
         fun i => if bases.getD i 0 = 0 then 1 else 0)) by
    simpa using h (List.range n) ([], [])
  intro l
  induction l with
  | nil => intro acc; simp
  | cons x xs ih =>
    intro acc
    rw [List.foldl_cons]
    by_cases hx : outcomes.getD x 0 = 1
    · rw [if_pos hx, ih]
      have hx' : outcomes[x]?.getD 0 = 1 := by
        simpa [List.getD_eq_getElem?_getD] using hx
      simp [List.filter_cons, hx', List.append_assoc]
    · rw [if_neg hx, ih]
      have hx' : ¬(outcomes[x]?.getD 0 = 1) := by
        simpa [List.getD_eq_getElem?_getD] using hx
      simp [List.filter_cons, hx']

theorem keys_match_self (k : List Nat) : keys_match k k = true := by
  simp [keys_match]

theorem e91SenderStep_error (b o : Nat) (acc : List Nat) :
    ((do
      let r ← e91SenderRound b o
      pure (acc ++ [r])) : Except PyErr (List Nat))
    = Except.error (if b = 2 then PyErr.typeErr else PyErr.nameErr) := by
  by_cases hb : b = 2
  · rw [show e91SenderRound b o = Except.error PyErr.typeErr by
      unfold e91SenderRound; rw [if_pos hb]]
    rw [except_error_bind, if_pos hb]
  · rw [show e91SenderRound b o = Except.error PyErr.nameErr by
      unfold e91SenderRound; rw [if_neg hb]]
    rw [except_error_bind, if_neg hb]

theorem e91SenderLoop_error (bases outcomes : List Nat) (l : List Nat)
    (hl : l ≠ []) (acc : List Nat) :
    ∃ e, (l.foldlM
        (fun acc i => do
          let r ← e91SenderRound (bases.getD i 0) (outcomes.getD i 0)
          pure (acc ++ [r]))
        acc : Except PyErr (List Nat))
      = Except.error e := by
  cases l with
  | nil => exact absurd rfl hl
  | cons x xs =>
    refine ⟨if bases.getD x 0 = 2 then PyErr.typeErr else PyErr.nameErr, ?_⟩
    rw [List.foldlM_cons, e91SenderStep_error, except_error_bind]

end QKD

namespace QKD

/-! ### Claim C2 -/

/-- C2 counterexample: in the free-running BB84 variant with
`key_size = 1`, a single agreeing basis draw gives one basis-agreement
index but an empty sender key (the sender drops the final matched index),
so the sifted-key length does not equal the basis-agreement count. -/
theorem c2_counterexample :
    (bb84v2SenderKey 1 [0] [0] [0]).length ≠ (matched_indices 1 [0] [0]).length := by
  decide

/-- C2 (amended): every variant's sifted key has length at most
`key_size`; the strict BB84 sender and receiver keys have length equal to
the basis-agreement count, and the strict B92 keys to the
conclusive-measurement count; the free-running BB84 sender's key instead
has length equal to the basis-agreement count minus one (truncated at
zero), because it drops the final matched index. -/
theorem c2_key_lengths (n : Nat) (a b secret results outcomes : List Nat) :
    (bb84SenderKey n a b secret).length = (matched_indices n a b).length
    ∧ (bb84ReceiverKey (matched_indices n a b) results).length
        = (matched_indices n a b).length
    ∧ (matched_indices n a b).length ≤ n
    ∧ (b92SenderKey secret (b92Receiver n b outcomes).1).length
        = (b92Receiver n b outcomes).1.length
    ∧ (b92Receiver n b outcomes).2.length = (b92Receiver n b outcomes).1.length
    ∧ (b92Receiver n b outcomes).1.length ≤ n
    ∧ (bb84v2SenderKey n a b secret).length
        = (matched_indices n a b).length - 1 := by
  refine ⟨?_, ?_, matched_indices_length_le n a b, ?_, ?_, ?_, ?_⟩
  · simp [bb84SenderKey]
  · simp [bb84ReceiverKey]
  · simp [b92SenderKey]
  · rw [b92Receiver_eq]; simp
  · rw [b92Receiver_eq]
    calc ((List.range n).filter fun i => outcomes.getD i 0 == 1).length
        ≤ (List.range n).length := List.length_filter_le _ _
      _ = n := List.length_range n
  · simp [bb84v2SenderKey, bb84v2SentIndices]

/-! ### Claim C3 -/

/-- C3: the free-running BB84 sender sends back exactly the matched-index
set with its final element removed (and builds its key over that shortened
set), whereas the strict BB84 sender sends and uses the full matched-index
set. -/
theorem c3_consistency_bit (n : Nat) (a b secret : List Nat) :
    bb84v2SentIndices n a b = (matched_indices n a b).dropLast
    ∧ (bb84v2SentIndices n a b).length = (matched_indices n a b).length - 1
    ∧ bb84v2SentIndices n a b
        ++ (matched_indices n a b).drop ((matched_indices n a b).length - 1)
        = matched_indices n a b
    ∧ bb84SentIndices n a b = matched_indices n a b
    ∧ bb84v2SenderKey n a b secret
        = (bb84v2SentIndices n a b).map (fun i => secret.getD i 0)
    ∧ bb84SenderKey n a b secret
        = (matched_indices n a b).map (fun i => secret.getD i 0) := by
  refine ⟨rfl, by simp [bb84v2SentIndices], ?_, rfl, rfl, rfl⟩
  rw [bb84v2SentIndices, List.dropLast_eq_take, List.take_append_drop]

/-! ### Claim C4 -/

/-- C4 counterexample: a free-running BB84 receiver with `key_size = 2`
that detected only one qubit still replies with its full two-element basis
array, so the basis reply is not sized by the number of detected qubits. -/
theorem c4_counterexample :
    (bb84v2BasisReply [0, 1] [0]).length ≠ ([0] : List Nat).length := by
  decide

/-- C4 (amended): only the free-running E91 receiver sizes its basis reply
by the number of qubits it actually detected (`bases[:len(results)]`); the
free-running BB84 receiver replies with its full `key_size`-length basis
array regardless of how many qubits arrived. -/
theorem c4_basis_reply (bases results : List Nat)
    (h : results.length ≤ bases.length) :
    (e91RealBasisReply bases results).length = results.length
    ∧ bb84v2BasisReply bases results = bases := by
  refine ⟨?_, rfl⟩
  simp [e91RealBasisReply, Nat.min_eq_left h]

/-- C4 witness. -/
theorem c4_basis_reply_witness :
    (e91RealBasisReply [0, 1] [0]).length = ([0] : List Nat).length
    ∧ bb84v2BasisReply [0, 1] [0] = [0, 1] :=
  c4_basis_reply [0, 1] [0] (by decide)

/-! ### Claim C7 -/

/-- C7 counterexample: a configuration with negative loss and decoherence
parameters does not fail at network-build time — construction succeeds and
returns the topology, because neither `TwoPartyNetwork.__init__` nor
`generate_noisy_network` validates anything. -/
theorem c7_counterexample :
    generate_noisy_network (twoPartyNetworkNew 0 (-1) 100 none (1, 0) (-1, -1))
      = Except.ok ⟨⟨0, -1, -1, -1⟩, 10, true, true, 100, (11, 10)⟩ := rfl

/-- C7 (amended): network construction performs no input validation at
all — every configuration, negative loss/decoherence parameters included,
builds a topology successfully, echoing its parameters unchanged; and the
classical delay is not configurable but hard-coded to 10 (so it is always
strictly positive). -/
theorem c7_no_validation (s : TwoPartyNetworkState) :
    generate_noisy_network s
      = Except.ok ⟨⟨s.length, s.dephase_rate, s.loss.1, s.loss.2⟩,
                   10, true, true, s.memory_size, s.t_time⟩ := rfl

/-! ### Claim C10 -/

/-- C10: the free-running BB84 receiver's key-construction loop never
raises an out-of-range error: it returns normally on every input, its
result keeps exactly the received matched indices that are in range of the
detected results (out-of-range indices are silently skipped), and its
length never exceeds the number of received indices. -/
theorem c10_receiver_key_total (matched results : List Nat) :
    bb84v2ReceiverKeyRun matched results
      = Except.ok (bb84v2ReceiverKey matched results)
    ∧ bb84v2ReceiverKey matched results
      = (matched.filter fun i => i < results.length).map (fun i => results.getD i 0)
    ∧ (bb84v2ReceiverKey matched results).length ≤ matched.length := by
  refine ⟨?_, rfl, ?_⟩
  · unfold bb84v2ReceiverKeyRun
    suffices h : ∀ (l : List Nat) (acc : List Nat),
        l.foldlM
          (fun acc i =>
            if i < results.length then do
              let r ← pyIndex results i
              pure (acc ++ [r])
            else pure acc)
          acc
        = Except.ok (acc ++ bb84v2ReceiverKey l results) by
      simpa using h matched []
    intro l
    induction l with
    | nil =>
      intro acc
      simp only [List.foldlM_nil, bb84v2ReceiverKey, List.filter_nil, List.map_nil,
        List.append_nil]
      rfl
    | cons x xs ih =>
      intro acc
      rw [List.foldlM_cons]
      by_cases hx : x < results.length
      · have hstep :
            (if x < results.length then do
              let r ← pyIndex results x
              pure (acc ++ [r])
             else pure acc)
            = (Except.ok (acc ++ [results.getD x 0]) : Except Unit (List Nat)) := by
          rw [if_pos hx]
          unfold pyIndex
          rw [dif_pos hx, except_ok_bind, List.getD_eq_getElem _ _ hx]
          rfl
        rw [hstep, except_ok_bind, ih]
        simp [bb84v2ReceiverKey, List.filter_cons, hx]
      · have hstep :
            (if x < results.length then do
              let r ← pyIndex results x
              pure (acc ++ [r])
             else pure acc)
            = (Except.ok acc : Except Unit (List Nat)) := by
          rw [if_neg hx]; rfl
        rw [hstep, except_ok_bind, ih]
        simp [bb84v2ReceiverKey, List.filter_cons, hx]
  · calc (bb84v2ReceiverKey matched results).length
        = (matched.filter fun i => i < results.length).length := by
          simp [bb84v2ReceiverKey]
      _ ≤ matched.length := List.length_filter_le _ _

/-- Membership in the free-running sender's transmitted index set implies
membership in the full matched set. -/
theorem bb84v2Sent_subset {n : Nat} {a b : List Nat} {i : Nat}
    (h : i ∈ bb84v2SentIndices n a b) : i ∈ matched_indices n a b :=
  (List.dropLast_sublist (matched_indices n a b)).subset h

/-- Strict BB84 over a noiseless, lossless channel: the sender's and the
receiver's sifted keys are identical, for every key size and all random
draws (the BB84 half of claim C1). -/
theorem bb84_strict_keys_identical (n : Nat) (a secret b free : List Nat) :
    bb84SenderKey n a b secret
      = bb84ReceiverKey (matched_indices n a b) (bb84Results n a secret b free) := by
  unfold bb84SenderKey bb84ReceiverKey
  apply List.map_congr_left
  intro i hi
  obtain ⟨hlt, heq⟩ := mem_matched_indices hi
  rw [bb84Results_getD _ _ _ _ hlt]
  unfold measureOutcome
  rw [if_pos heq]

/-- Free-running BB84 over a noiseless, lossless channel: both sides of a
run build the same sifted key. -/
theorem bb84v2_run_keys_eq (n : Nat) (d : RunDraw) :
    (bb84v2NoiselessRun n d).1 = (bb84v2NoiselessRun n d).2 := by
  unfold bb84v2NoiselessRun bb84v2SenderKey bb84v2ReceiverKey bb84v2BasisReply
  simp only
  have hlt : ∀ i ∈ bb84v2SentIndices n d.basesA d.basesB, i < n :=
    fun i hi => (mem_matched_indices (bb84v2Sent_subset hi)).1
  have hfil : (bb84v2SentIndices n d.basesA d.basesB).filter
      (fun i => i < (bb84Results n d.basesA d.secret d.basesB d.free).length)
      = bb84v2SentIndices n d.basesA d.basesB := by
    rw [List.filter_eq_self]
    intro i hi
    simpa [bb84Results_length] using hlt i hi
  rw [hfil]
  apply List.map_congr_left
  intro i hi
  have heq := (mem_matched_indices (bb84v2Sent_subset hi)).2
  rw [bb84Results_getD _ _ _ _ (hlt i hi)]
  unfold measureOutcome
  rw [if_pos heq]

/-- The statistics fold of `run_experiment` counts every run whose key pair
matches. -/
theorem run_experiment_counts (pairs : List (List Nat × List Nat))
    (h : ∀ p ∈ pairs, keys_match p.1 p.2 = true) :
    ∀ st : ExperimentStats,
      pairs.foldl
        (fun st p =>
          if keys_match p.1 p.2 then
            { mismatched_keys := st.mismatched_keys, matched_keys := st.matched_keys + 1 }
          else
            { mismatched_keys := st.mismatched_keys + 1, matched_keys := st.matched_keys })
        st
      = { mismatched_keys := st.mismatched_keys,
          matched_keys := st.matched_keys + pairs.length } := by
  induction pairs with
  | nil => intro st; simp
  | cons p ps ih =>
    intro st
    rw [List.foldl_cons, if_pos (h p (List.mem_cons_self p ps)),
      ih (fun q hq => h q (List.mem_cons_of_mem p hq))]
    simp only [List.length_cons]
    congr 1
    omega

/-! ### Claim C5 -/

/-- C5: in strict B92, the sender's per-round basis equals its secret bit
(the bases drawn at b92.py line 93 are all overwritten); the receiver keeps
a round exactly when the raw measurement outcome is 1 — the outcome that
rules out one candidate state in the basis used — and records the
complement `1 - basis` of the basis it measured in; the sender's key share
is its secret-bit sequence restricted to exactly the kept indices and the
receiver's key share is its kept results. -/
theorem c5_b92_sifting (n : Nat) (secret bases outcomes : List Nat)
    (hs : secret.length = n) (hs2 : ∀ x ∈ secret, x < 2) :
    b92SenderBases n secret bases = secret
    ∧ (b92Receiver n bases outcomes).1
        = (List.range n).filter (fun i => outcomes.getD i 0 == 1)
    ∧ (b92Receiver n bases outcomes).2
        = ((b92Receiver n bases outcomes).1).map (fun i => 1 - bases.getD i 0)
    ∧ b92SenderKey secret (b92Receiver n bases outcomes).1
        = ((b92Receiver n bases outcomes).1).map (fun i => secret.getD i 0) := by
  refine ⟨?_, ?_, ?_, rfl⟩
  · apply List.ext_getElem
    · simp [b92SenderBases, hs]
    · intro i h1 h2
      have hi : i < n := by simpa [b92SenderBases] using h1
      have hi' : i < secret.length := by omega
      have hmem : secret.getD i 0 ∈ secret := by
        rw [List.getD_eq_getElem _ _ hi']
        exact List.getElem_mem hi'
      have hbit : secret.getD i 0 < 2 := hs2 _ hmem
      have hget : secret.getD i 0 = secret[i] := List.getD_eq_getElem _ _ hi'
      unfold b92SenderBases
      rw [List.getElem_map, List.getElem_range]
      rcases (show secret.getD i 0 = 0 ∨ secret.getD i 0 = 1 by omega) with h0 | h1
      · rw [if_pos h0, ← hget, h0]
      · rw [if_neg (by omega), if_pos h1, ← hget, h1]
  · rw [b92Receiver_eq]
  · rw [b92Receiver_eq]
    apply List.map_congr_left
    intro i _
    by_cases hb : bases.getD i 0 = 0
    · rw [hb]
      norm_num
    · rw [if_neg hb]
      omega

/-- C5 witness: a concrete two-round B92 run. -/
theorem c5_b92_sifting_witness :
    b92SenderBases 2 [0, 1] [1, 0] = [0, 1]
    ∧ (b92Receiver 2 [1, 0] [1, 0]).1
        = (List.range 2).filter (fun i => ([1, 0] : List Nat).getD i 0 == 1)
    ∧ (b92Receiver 2 [1, 0] [1, 0]).2
        = ((b92Receiver 2 [1, 0] [1, 0]).1).map
            (fun i => 1 - ([1, 0] : List Nat).getD i 0)
    ∧ b92SenderKey [0, 1] (b92Receiver 2 [1, 0] [1, 0]).1
        = ((b92Receiver 2 [1, 0] [1, 0]).1).map
            (fun i => ([0, 1] : List Nat).getD i 0) :=
  c5_b92_sifting 2 [0, 1] [1, 0] [1, 0] (by decide) (by decide)

/-! ### Claim C1 -/

/-- C1: the claim asserts that for every strict BB84 and strict E91 run
over a noiseless, lossless channel the two sides' sifted keys coincide.
This holds for strict BB84 (see `bb84_strict_keys_identical`), but the
strict E91 sender cannot complete any run with `key_size ≥ 1`: its first
loop iteration raises a Python error — a `TypeError` when the round's
basis draw is 2 (the `abs(1 - execute_instruction(...))` branch) and
otherwise a `NameError` (the local `results` is never defined) — so no
E91 sifted key is ever emitted. -/
theorem c1_e91_sender_errors (secret bases outcomes bobBases : List Nat)
    (h : 1 ≤ secret.length) :
    ∃ e, e91SenderRun secret bases outcomes bobBases = Except.error e := by
  unfold e91SenderRun
  obtain ⟨e, he⟩ :=
    e91SenderLoop_error bases outcomes (List.range secret.length)
      (by rw [Ne, List.range_eq_nil]; omega) []
  rw [he, except_error_bind]
  exact ⟨e, rfl⟩

/-- C1 witness: a one-round strict E91 run. -/
theorem c1_e91_sender_errors_witness :
    ∃ e, e91SenderRun [0] [0] [0] [0] = Except.error e :=
  c1_e91_sender_errors [0] [0] [0] [0] (by decide)

/-! ### Claim C6 -/

/-- C6: the claim asserts that both E91 parties draw from the same set of
three bases and that the third basis has its raw outcome inverted before
recording, on both sides.  In the code the receiver draws from `{1, 2, 3}`
while the sender draws from `{0, 1, 2}` (not the same label set), and the
would-be inversion `abs(1 - execute_instruction(...))` subtracts the
instruction's result tuple from an int, so the inverted-basis round raises
a `TypeError` on either side (receiver basis 3, sender basis 2) instead of
recording an inverted outcome. -/
theorem c6_third_basis_crash (r o : Nat) :
    e91ReceiverRound 3 o = Except.error PyErr.typeErr
    ∧ e91SenderRound 2 o = Except.error PyErr.typeErr
    ∧ 1 ≤ e91ReceiverBasisDraw r ∧ e91ReceiverBasisDraw r ≤ 3
    ∧ e91SenderBasisDraw r < 3 := by
  refine ⟨rfl, rfl, ?_, ?_, ?_⟩
  · unfold e91ReceiverBasisDraw
    omega
  · have := Nat.mod_lt r (show 0 < 3 by norm_num)
    unfold e91ReceiverBasisDraw
    omega
  · exact Nat.mod_lt r (by norm_num)

/-! ### Claim C9 -/

/-- C9: running the (noiseless, lossless: `loss=(0,0)`, `dephase_rate=0`)
BB84 experiment driver for 10 runs yields `MATCHED_KEYS = 10` and
`MISMATCHED_KEYS = 0`, whatever the random draws of each run. -/
theorem c9_experiment_stats (draws : List RunDraw) (h : draws.length = 10) :
    run_experiment 100 draws = { mismatched_keys := 0, matched_keys := 10 } := by
  unfold run_experiment
  have hall : ∀ p ∈ draws.map (bb84v2NoiselessRun 100), keys_match p.1 p.2 = true := by
    intro p hp
    obtain ⟨d, _, rfl⟩ := List.mem_map.mp hp
    rw [← bb84v2_run_keys_eq 100 d]
    exact keys_match_self _
  rw [run_experiment_counts _ hall]
  simp [h]

/-- C9 witness: ten concrete runs with `key_size = 100`. -/
theorem c9_experiment_stats_witness :
    run_experiment 100 (List.replicate 10 ⟨[], [], [], []⟩)
      = { mismatched_keys := 0, matched_keys := 10 } :=
  c9_experiment_stats _ (by simp)

/-! ### Claim C8 -/

theorem okUpTo_succ {loss : Nat → Bool} {i : Nat} (h : okUpTo loss i)
    (hl : loss i = false) : okUpTo loss (i + 1) := by
  intro j hj
  rcases Nat.lt_succ_iff_lt_or_eq.mp hj with hj' | rfl
  · exact h j hj'
  · exact hl

theorem inv_init {n : Nat} (loss : Nat → Bool) (hn : 1 ≤ n) :
    Inv n loss initWorld :=
  Or.inl ⟨0, hn, fun j hj => absurd hj (Nat.not_lt_zero j), rfl⟩

/-- The invariant is preserved by every transition of the strict BB84
pair. -/
theorem inv_step {n : Nat} {loss : Nat → Bool} {w w' : World}
    (hinv : Inv n loss w) (hstep : Step n loss w w') : Inv n loss w' := by
  rcases hinv with ⟨i, hi, hok, rfl⟩ | ⟨i, hi, hok, rfl⟩ | ⟨i, hi, hok, rfl⟩ |
    ⟨i, hi, hl, hok, rfl⟩ | ⟨i, hi, hl, hok, rfl⟩ | ⟨i, hi, hok, rfl⟩ |
    ⟨hok, rfl⟩ | ⟨hok, rfl⟩ | ⟨hok, rfl⟩
  · -- sender about to transmit qubit i
    cases hstep with
    | sendQubit _ _ _ _ _ hin =>
      by_cases hl : loss i = true
      · by_cases h2 : i + 1 < n
        · exact Or.inr (Or.inr (Or.inr (Or.inl
            ⟨i, h2, hl, hok, by simp [h2, hl]⟩)))
        · exact Or.inr (Or.inr (Or.inr (Or.inr (Or.inl
            ⟨i, by omega, hl, hok, by simp [h2, hl]⟩))))
      · have hl' : loss i = false := by simpa using hl
        by_cases h2 : i + 1 < n
        · exact Or.inr (Or.inl
            ⟨i, h2, okUpTo_succ hok hl', by simp [h2, hl']⟩)
        · exact Or.inr (Or.inr (Or.inl
            ⟨i, by omega, okUpTo_succ hok hl', by simp [h2, hl']⟩))
  · -- delivered qubit i awaiting measurement, sender in waitAck
    cases hstep with
    | recvQubit _ _ _ _ _ _ hin =>
      rw [if_pos hi]
      exact Or.inr (Or.inr (Or.inr (Or.inr (Or.inr (Or.inl ⟨i, hi, hok, rfl⟩)))))
  · -- delivered final qubit awaiting measurement, sender in waitBases
    cases hstep with
    | recvQubit _ _ _ _ _ _ hin =>
      rw [if_neg (by omega)]
      refine Or.inr (Or.inr (Or.inr (Or.inr (Or.inr (Or.inr (Or.inl ⟨?_, rfl⟩))))))
      rw [← hi]
      exact hok
  · -- qubit i lost, sender stuck in waitAck: no transition applies
    cases hstep
  · -- final qubit lost, sender stuck in waitBases: no transition applies
    cases hstep
  · -- ACK for qubit i in flight back to the sender
    cases hstep with
    | recvAck => exact Or.inl ⟨i + 1, hi, hok, rfl⟩
  · -- basis message in flight to the sender
    cases hstep with
    | recvBases =>
      exact Or.inr (Or.inr (Or.inr (Or.inr (Or.inr (Or.inr (Or.inr (Or.inl
        ⟨hok, rfl⟩)))))))
  · -- matched-indices message in flight to the receiver
    cases hstep with
    | recvMatched =>
      exact Or.inr (Or.inr (Or.inr (Or.inr (Or.inr (Or.inr (Or.inr (Or.inr
        ⟨hok, rfl⟩)))))))
  · -- both complete: no transition applies
    cases hstep

/-- Every reachable state of the strict BB84 pair satisfies the
invariant. -/
theorem reachable_inv {n : Nat} {loss : Nat → Bool} {w : World} (hn : 1 ≤ n)
    (h : Reachable n loss w) : Inv n loss w := by
  induction h with
  | refl => exact inv_init loss hn
  | tail _ hstep ih => exact inv_step ih hstep

/-- C8: in the strict (handshake) BB84 variant, every reachable global
state has at most one qubit in flight (the sender transmits qubit `i+1`
only after a classical message follows qubit `i`), and if any of the `n`
qubits is lost in transit then no reachable state has the sender in its
terminal state: there is no timeout or cancellation transition, so the
state machine never reaches completion. -/
theorem c8_strict_handshake (n : Nat) (loss : Nat → Bool) (w : World)
    (hn : 1 ≤ n) (hw : Reachable n loss w) :
    w.flight.length ≤ 1
    ∧ ((∃ k, k < n ∧ loss k = true) → w.sp ≠ SPhase.done) := by
  have hinv := reachable_inv hn hw
  constructor
  · rcases hinv with ⟨i, _, _, rfl⟩ | ⟨i, _, _, rfl⟩ | ⟨i, _, _, rfl⟩ |
      ⟨i, _, _, _, rfl⟩ | ⟨i, _, _, _, rfl⟩ | ⟨i, _, _, rfl⟩ |
      ⟨_, rfl⟩ | ⟨_, rfl⟩ | ⟨_, rfl⟩ <;> simp
  · rintro ⟨k, hk, hl⟩ hdone
    rcases hinv with ⟨i, _, _, rfl⟩ | ⟨i, _, _, rfl⟩ | ⟨i, _, _, rfl⟩ |
      ⟨i, _, _, _, rfl⟩ | ⟨i, _, _, _, rfl⟩ | ⟨i, _, _, rfl⟩ |
      ⟨hok, rfl⟩ | ⟨hok, rfl⟩ | ⟨hok, rfl⟩
    all_goals first
      | exact SPhase.noConfusion hdone
      | · rw [hok k hk] at hl
          exact Bool.noConfusion hl

/-- C8 witness: the initial state of a one-qubit session whose only qubit
is lost. -/
theorem c8_strict_handshake_witness :
    initWorld.flight.length ≤ 1
    ∧ ((∃ k, k < 1 ∧ (fun _ => true) k = true) → initWorld.sp ≠ SPhase.done) :=
  c8_strict_handshake 1 (fun _ => true) initWorld (by decide)
    Relation.ReflTransGen.refl

end QKD

